import Mathlib

/-!
Formal model of the LLVM time-trace profiler
(llvm/include/llvm/Support/TimeProfiler.h) and of the engine behaviour
documented for it. Time points are natural numbers of nanosecond clock
ticks; casting a time point to microsecond precision is truncating
integer division. Stateful operations are explicit state passing over a
thread-local profiler structure and a process-wide registry; fallible
operations return Option or Except.
-/

namespace TimeProfiler

/-- Clock ticks of the high resolution clock, in nanoseconds. -/
abbrev TimePointType := Nat

/-- One timed section record: start and end time point, name and detail.
Mirrors struct TimeTraceProfilerEntry of TimeProfiler.h. -/
structure TimeTraceProfilerEntry where
  Start : TimePointType
  End : TimePointType
  Name : String
  Detail : String
deriving Repr, DecidableEq

/-- Cast of a time point to microsecond precision: truncating division,
as std chrono time point cast does for nonnegative ticks. -/
def timePointCastUs (t : TimePointType) : Nat := t / 1000

/-- From TimeProfiler.h (getFlameGraphStartUs): both endpoints are cast to
microsecond precision first, then subtracted. -/
def TimeTraceProfilerEntry.getFlameGraphStartUs (e : TimeTraceProfilerEntry)
    (StartTime : TimePointType) : Int :=
  (timePointCastUs e.Start : Int) - (timePointCastUs StartTime : Int)

/-- From TimeProfiler.h (getFlameGraphDurUs): both endpoints are cast to
microsecond precision first, then subtracted; the duration itself is
never truncated. -/
def TimeTraceProfilerEntry.getFlameGraphDurUs (e : TimeTraceProfilerEntry) : Int :=
  (timePointCastUs e.End : Int) - (timePointCastUs e.Start : Int)

/-- Thread-local profiler: the stack of open entries (head is the top),
the list of completed entries in completion order, and the per-name
count and accumulated full-precision duration. -/
structure TimeTraceProfiler where
  Stack : List TimeTraceProfilerEntry
  Entries : List TimeTraceProfilerEntry
  CountAndTotalPerName : List (String × Nat × Nat)
deriving Repr, DecidableEq

/-- A fresh thread-local profiler. -/
def emptyThreadProfiler : TimeTraceProfiler := ⟨[], [], []⟩

/-- Fold one occurrence of a name with the given full-precision duration
into the per-name count and total map. -/
def updateTotal : List (String × Nat × Nat) → String → Nat → List (String × Nat × Nat)
  | [], n, d => [(n, 1, d)]
  | (m, c, t) :: rest, n, d =>
    if m = n then (m, c + 1, t + d) :: rest
    else (m, c, t) :: updateTotal rest n d

/-- Modelled from the spec: the body of the begin operation is not under
src (only its declaration is); per the design, begin pushes a new open
entry with start time now onto the calling thread stack. -/
def beginSection (now : TimePointType) (Name Detail : String)
    (p : TimeTraceProfiler) : TimeTraceProfiler :=
  { p with Stack := ⟨now, now, Name, Detail⟩ :: p.Stack }

/-- Modelled from the spec: the body of the end operation is not under
src (only its declaration is); per the design, end pops the top open
entry, stamps its end time, appends it to the completed list, and folds
its duration into the running total of its name unless a still-open
ancestor entry bears the identical name (so nested re-entries of the
same name are not double counted). Ending with an empty stack is a
programmer contract violation, modelled as failure. -/
def endSection (now : TimePointType) (p : TimeTraceProfiler) :
    Option TimeTraceProfiler :=
  match p.Stack with
  | [] => none
  | e :: rest =>
    some { Stack := rest,
           Entries := p.Entries ++ [{ e with End := now }],
           CountAndTotalPerName :=
             if rest.any (fun a => a.Name == e.Name) then p.CountAndTotalPerName
             else updateTotal p.CountAndTotalPerName e.Name (now - e.Start) }

/-- Effect counters for one begin call: how many times the detail closure
was invoked and how many clock reads were made. -/
structure BeginEffects where
  DetailCalls : Nat
  ClockReads : Nat
deriving Repr, DecidableEq

/-- Modelled from the spec: the closure overload of the begin operation
is not under src (only its declaration is); per the design the detail
closure is invoked exactly once inside the active branch when the entry
is created with its detail, and the inactive path is a single branch
with no clock read and no string work. -/
def timeTraceProfilerBeginClosure (active : Bool) (now : TimePointType)
    (Name : String) (Detail : Unit → String) (p : TimeTraceProfiler) :
    TimeTraceProfiler × BeginEffects :=
  if active then (beginSection now Name (Detail ()) p, ⟨1, 1⟩)
  else (p, ⟨0, 0⟩)

/-- Modelled from the spec: the closure overload of the detached entry
begin is not under src (only its declaration and the default entry
constructor are); per the header documentation, when the profiler is not
active it returns a default-constructed empty entry without any use of
the clock and without invoking the closure. -/
def timeTraceProfilerBeginEntryClosure (active : Bool) (now : TimePointType)
    (Name : String) (Detail : Unit → String) :
    TimeTraceProfilerEntry × BeginEffects :=
  if active then (⟨now, now, Name, Detail ()⟩, ⟨1, 1⟩)
  else (⟨0, 0, "", ""⟩, ⟨0, 0⟩)

/-- From TimeProfiler.h: the TimeTraceScope closure constructor checks
the profiler instance and only then forwards name and closure to the
begin operation. -/
def timeTraceScopeCtorClosure (active : Bool) (now : TimePointType)
    (Name : String) (Detail : Unit → String) (p : TimeTraceProfiler) :
    TimeTraceProfiler × BeginEffects :=
  if active then timeTraceProfilerBeginClosure true now Name Detail p
  else (p, ⟨0, 0⟩)

/-- From TimeProfiler.h: the TimeTraceScope constructor tests whether a
profiler instance is active and, only if so, issues one begin call. The
second component counts the begin calls issued. -/
def timeTraceScopeCtor (active : Bool) (now : TimePointType)
    (Name Detail : String) (p : TimeTraceProfiler) :
    TimeTraceProfiler × Nat :=
  if active then (beginSection now Name Detail p, 1) else (p, 0)

/-- From TimeProfiler.h: the TimeTraceScope destructor independently
tests whether a profiler instance is active and, only if so, issues one
end call. The second component counts the end calls issued. -/
def timeTraceScopeDtor (active : Bool) (now : TimePointType)
    (p : TimeTraceProfiler) : Option TimeTraceProfiler × Nat :=
  if active then (endSection now p, 1) else (some p, 0)

/-- One instrumentation action on a thread, carrying the clock value at
which it executes. -/
inductive Act where
  | beginA : Nat → String → String → Act
  | endA : Nat → Act
deriving Repr, DecidableEq

/-- The clock value at which an action executes. -/
def Act.time : Act → Nat
  | .beginA t _ _ => t
  | .endA t => t

/-- Execute one action on a thread-local profiler. -/
def step (p : TimeTraceProfiler) : Act → Option TimeTraceProfiler
  | .beginA t n d => some (beginSection t n d p)
  | .endA t => endSection t p

/-- Execute a sequence of actions on a thread-local profiler. -/
def runActs : List Act → TimeTraceProfiler → Option TimeTraceProfiler
  | [], p => some p
  | a :: l, p => (step p a).bind (runActs l)

/-- Number of begin actions in a sequence. -/
def beginCount (l : List Act) : Nat :=
  l.countP fun a => match a with | .beginA _ _ _ => true | .endA _ => false

/-- Number of end actions in a sequence. -/
def endCount (l : List Act) : Nat :=
  l.countP fun a => match a with | .beginA _ _ _ => false | .endA _ => true

/-- Balanced begin and end sequences: every begin has a matching end and
they nest properly. -/
inductive Balanced : List Act → Prop
  | nil : Balanced []
  | pair (s e : Nat) (n d : String) (m r : List Act) :
      Balanced m → Balanced r →
      Balanced (Act.beginA s n d :: (m ++ Act.endA e :: r))

/-- Process-wide registry: elision granularity, process name, time
origin, and every registered thread-local profiler in registration
order. -/
structure ProcessRegistry where
  TimeTraceGranularity : Nat
  ProcName : String
  BeginningOfTime : TimePointType
  Instances : List TimeTraceProfiler
deriving Repr, DecidableEq

/-- One emitted trace event: name, start offset in microseconds from the
origin, duration in microseconds, thread id, detail, and the occurrence
count carried only by aggregate Total events. -/
structure TraceEvent where
  Name : String
  Ts : Int
  Dur : Int
  Tid : Nat
  Detail : String
  Count : Option Nat
deriving Repr, DecidableEq

/-- Modelled from the spec: the serializer body is not under src; per the
design an entry is retained in the per-section event list when the
granularity is zero or its microsecond duration reaches the
granularity. -/
def keepEntry (gran : Nat) (e : TimeTraceProfilerEntry) : Bool :=
  gran == 0 || decide ((gran : Int) ≤ e.getFlameGraphDurUs)

/-- Modelled from the spec: the per-section event of one completed entry,
with offset and duration computed from microsecond-truncated
endpoints. -/
def entryEvent (origin : TimePointType) (tid : Nat)
    (e : TimeTraceProfilerEntry) : TraceEvent :=
  ⟨e.Name, e.getFlameGraphStartUs origin, e.getFlameGraphDurUs, tid, e.Detail, none⟩

/-- Modelled from the spec: the serializer walks the registered
thread-local profilers in registration order, assigning increasing
thread ids, and within a thread the completed entries in completion
order, dropping elided entries. -/
def sectionEventsFrom (gran : Nat) (origin : TimePointType) (tid : Nat) :
    List TimeTraceProfiler → List TraceEvent
  | [] => []
  | p :: rest =>
    (p.Entries.filter (keepEntry gran)).map (entryEvent origin tid)
      ++ sectionEventsFrom gran origin (tid + 1) rest

/-- Modelled from the spec: the per-section event list of the whole
registry, threads in registration order starting at thread id zero. -/
def sectionEvents (gran : Nat) (origin : TimePointType)
    (insts : List TimeTraceProfiler) : List TraceEvent :=
  sectionEventsFrom gran origin 0 insts

/-- Every completed entry of every thread as an event, nothing
dropped. -/
def allSectionEventsFrom (origin : TimePointType) (tid : Nat) :
    List TimeTraceProfiler → List TraceEvent
  | [] => []
  | p :: rest =>
    p.Entries.map (entryEvent origin tid)
      ++ allSectionEventsFrom origin (tid + 1) rest

/-- Merge one name with its count and total into an accumulated map. -/
def addTotal : List (String × Nat × Nat) → String × Nat × Nat → List (String × Nat × Nat)
  | [], x => [x]
  | (m, c, t) :: rest, (n, c2, t2) =>
    if m = n then (m, c + c2, t + t2) :: rest
    else (m, c, t) :: addTotal rest (n, c2, t2)

/-- Modelled from the spec: the per-name counts and totals of all
registered thread-local profilers are summed across threads. -/
def combineTotals (insts : List TimeTraceProfiler) : List (String × Nat × Nat) :=
  insts.foldl (fun acc p => p.CountAndTotalPerName.foldl addTotal acc) []

/-- Modelled from the spec: after the per-thread section events, one
synthetic Total event per distinct name carries the accumulated
duration, cast to microseconds, and the occurrence count. -/
def totalEvents (insts : List TimeTraceProfiler) : List TraceEvent :=
  (combineTotals insts).map fun nct =>
    ⟨"Total " ++ nct.1, 0, ((nct.2.2 / 1000 : Nat) : Int), 0, "", some nct.2.1⟩

/-- Modelled from the spec: the whole serialized document, section events
of all threads followed by the aggregate Total events. -/
def writeEvents (r : ProcessRegistry) : List TraceEvent :=
  sectionEvents r.TimeTraceGranularity r.BeginningOfTime r.Instances ++
    totalEvents r.Instances

/-- Modelled from the spec: the body of timeTraceProfilerInitialize is
not under src (only its declaration is); per the design it fails with
the already-initialized error when a registry is active, leaving it
untouched, and otherwise creates the registry with the given granularity
and name, captures the time origin, and registers the calling thread. -/
def timeTraceProfilerInit (gran : Nat) (procName : String)
    (now : TimePointType) (g : Option ProcessRegistry) :
    Except String Unit × Option ProcessRegistry :=
  match g with
  | some r => (Except.error "already initialized", some r)
  | none => (Except.ok (), some ⟨gran, procName, now, [emptyThreadProfiler]⟩)

/-- Modelled from the spec: the body of the stream write operation is not
under src (only its declaration is); per the design it fails with the
not-initialized error and produces no output when no registry is active,
and otherwise serializes the whole document. -/
def timeTraceProfilerWriteOp (g : Option ProcessRegistry) :
    Except String (List TraceEvent) :=
  match g with
  | none => Except.error "not initialized"
  | some r => Except.ok (writeEvents r)

/-- From the TimeProfiler.h documentation of the file-target write
overload: it writes to the preferred file name if provided, and
otherwise to the fallback file name with .time-trace appended. This is
the target path the core operation itself derives. -/
def writeTargetPath (PreferredFileName FallbackFileName : String) : String :=
  if PreferredFileName = "" then FallbackFileName ++ ".time-trace"
  else PreferredFileName

/-- The program of k disjoint, non-nested invocations of one name, one
begin and one end per interval. -/
def disjointProgram (N : String) (ivs : List (Nat × Nat)) : List Act :=
  ivs.flatMap fun se => [Act.beginA se.1 N "", Act.endA se.2]

/-- The thread-local profiler state reached by running the disjoint
invocation program from a fresh profiler. -/
def disjointProfiler (N : String) (ivs : List (Nat × Nat)) : TimeTraceProfiler :=
  { Stack := [],
    Entries := ivs.map fun se => ⟨se.1, se.2, N, ""⟩,
    CountAndTotalPerName :=
      ivs.foldl (fun m se => updateTotal m N (se.2 - se.1)) [] }

/-- Sum of the interval durations of a list of intervals. -/
def sumDur (ivs : List (Nat × Nat)) : Nat :=
  (ivs.map fun se => se.2 - se.1).sum

/-- Scale whole-microsecond intervals to nanosecond clock ticks. -/
def scaleUs (ivs : List (Nat × Nat)) : List (Nat × Nat) :=
  ivs.map fun se => (1000 * se.1, 1000 * se.2)

/-- Running a concatenation of action sequences is running them in
order. -/
theorem runActs_append (la lb : List Act) (p : TimeTraceProfiler) :
    runActs (la ++ lb) p = (runActs la p).bind (runActs lb) := by
  induction la generalizing p with
  | nil => simp [runActs]
  | cons a l ih =>
    cases h : step p a with
    | none => simp [runActs, h]
    | some q => simp [runActs, h, ih]

/-- A balanced action sequence runs to completion from any profiler,
restores the open-entry stack, and appends one completed entry per end
action. -/
theorem runActs_balanced_stack (l : List Act) (hb : Balanced l) :
    ∀ p : TimeTraceProfiler, ∃ q, runActs l p = some q ∧ q.Stack = p.Stack ∧
      q.Entries.length = p.Entries.length + endCount l := by
  induction hb with
  | nil =>
    intro p
    exact ⟨p, rfl, rfl, by simp [endCount, runActs]⟩
  | pair s e n d m r hm hr ihm ihr =>
    intro p
    obtain ⟨q1, hq1, hs1, hl1⟩ := ihm (beginSection s n d p)
    obtain ⟨st1, E1, T1⟩ := q1
    have hs1x : st1 = ⟨s, s, n, d⟩ :: p.Stack := hs1
    subst hs1x
    have hl1x : E1.length = p.Entries.length + endCount m := hl1
    obtain ⟨q, hq, hsq, hlq⟩ := ihr
      ⟨p.Stack, E1 ++ [⟨s, e, n, d⟩],
        if p.Stack.any (fun a => a.Name == n) then T1
        else updateTotal T1 n (e - s)⟩
    have step1 : runActs (Act.beginA s n d :: (m ++ Act.endA e :: r)) p
        = runActs (m ++ Act.endA e :: r) (beginSection s n d p) := rfl
    have step2 : runActs (m ++ Act.endA e :: r) (beginSection s n d p)
        = runActs (Act.endA e :: r)
            (⟨⟨s, s, n, d⟩ :: p.Stack, E1, T1⟩ : TimeTraceProfiler) := by
      rw [runActs_append, hq1]
      exact rfl
    have step3 : runActs (Act.endA e :: r)
        (⟨⟨s, s, n, d⟩ :: p.Stack, E1, T1⟩ : TimeTraceProfiler)
        = runActs r
            ⟨p.Stack, E1 ++ [⟨s, e, n, d⟩],
              if p.Stack.any (fun a => a.Name == n) then T1
              else updateTotal T1 n (e - s)⟩ := rfl
    have hcount : endCount (Act.beginA s n d :: (m ++ Act.endA e :: r))
        = endCount m + endCount r + 1 := by
      simp [endCount, List.countP_cons, List.countP_append]
      omega
    refine ⟨q, (step1.trans (step2.trans step3)).trans hq, hsq, ?_⟩
    have hlqx : q.Entries.length = (E1 ++ [(⟨s, e, n, d⟩ :
        TimeTraceProfilerEntry)]).length + endCount r := hlq
    simp [List.length_append] at hlqx
    omega

/-- A balanced sequence has as many end actions as begin actions. -/
theorem balanced_endCount_eq_beginCount (l : List Act) (hb : Balanced l) :
    endCount l = beginCount l := by
  induction hb with
  | nil => rfl
  | pair s e n d m r hm hr ihm ihr =>
    simp only [endCount, beginCount, List.countP_cons, List.countP_append] at *
    omega

/-- Over a monotone clock, a balanced sequence completes, restores the
stack, appends one completed entry per end action, and every newly
completed entry has its end time at or after its start time. -/
theorem runActs_balanced_wf (l : List Act) (hb : Balanced l) :
    ∀ p : TimeTraceProfiler,
      List.Pairwise (· ≤ ·) (l.map Act.time) →
      ∃ q, runActs l p = some q ∧ q.Stack = p.Stack ∧
        q.Entries.length = p.Entries.length + endCount l ∧
        ∀ x ∈ q.Entries, x ∈ p.Entries ∨ x.Start ≤ x.End := by
  induction hb with
  | nil =>
    intro p _
    exact ⟨p, rfl, rfl, by simp [endCount, runActs], fun x hx => Or.inl hx⟩
  | pair s e n d m r hm hr ihm ihr =>
    intro p hpair
    rw [List.map_cons, List.map_append, List.map_cons, List.pairwise_cons]
      at hpair
    obtain ⟨hhead, htail⟩ := hpair
    rw [List.pairwise_append, List.pairwise_cons] at htail
    obtain ⟨hpm, ⟨her, hpr⟩, hcross⟩ := htail
    have hse : s ≤ e := hhead e (by simp [Act.time])
    obtain ⟨q1, hq1, hs1, hl1, hw1⟩ := ihm (beginSection s n d p) hpm
    obtain ⟨st1, E1, T1⟩ := q1
    have hs1x : st1 = ⟨s, s, n, d⟩ :: p.Stack := hs1
    subst hs1x
    have hl1x : E1.length = p.Entries.length + endCount m := hl1
    have hw1x : ∀ x ∈ E1, x ∈ p.Entries ∨ x.Start ≤ x.End := hw1
    obtain ⟨q, hq, hsq, hlq, hwq⟩ := ihr
      ⟨p.Stack, E1 ++ [⟨s, e, n, d⟩],
        if p.Stack.any (fun a => a.Name == n) then T1
        else updateTotal T1 n (e - s)⟩ hpr
    have step1 : runActs (Act.beginA s n d :: (m ++ Act.endA e :: r)) p
        = runActs (m ++ Act.endA e :: r) (beginSection s n d p) := rfl
    have step2 : runActs (m ++ Act.endA e :: r) (beginSection s n d p)
        = runActs (Act.endA e :: r)
            (⟨⟨s, s, n, d⟩ :: p.Stack, E1, T1⟩ : TimeTraceProfiler) := by
      rw [runActs_append, hq1]
      exact rfl
    have step3 : runActs (Act.endA e :: r)
        (⟨⟨s, s, n, d⟩ :: p.Stack, E1, T1⟩ : TimeTraceProfiler)
        = runActs r
            ⟨p.Stack, E1 ++ [⟨s, e, n, d⟩],
              if p.Stack.any (fun a => a.Name == n) then T1
              else updateTotal T1 n (e - s)⟩ := rfl
    have hcount : endCount (Act.beginA s n d :: (m ++ Act.endA e :: r))
        = endCount m + endCount r + 1 := by
      simp [endCount, List.countP_cons, List.countP_append]
      omega
    refine ⟨q, (step1.trans (step2.trans step3)).trans hq, hsq, ?_, ?_⟩
    · have hlqx : q.Entries.length = (E1 ++ [(⟨s, e, n, d⟩ :
          TimeTraceProfilerEntry)]).length + endCount r := hlq
      simp [List.length_append] at hlqx
      omega
    · intro x hx
      rcases hwq x hx with hx2 | hx2
      · have hx3 : x ∈ E1 ++ [(⟨s, e, n, d⟩ : TimeTraceProfilerEntry)] := hx2
        rcases List.mem_append.mp hx3 with hx4 | hx4
        · exact hw1x x hx4
        · right
          have : x = ⟨s, e, n, d⟩ := by simpa using hx4
          subst this
          exact hse
      · exact Or.inr hx2

/-- C3: every balanced begin/end sequence executed on one thread over a
monotone clock while tracing is active runs to completion, produces
exactly one completed entry per begin call, and every completed entry
has end at or after start. -/
theorem balanced_run_entry_count_and_order (l : List Act) (hb : Balanced l)
    (hmono : List.Pairwise (· ≤ ·) (l.map Act.time)) :
    ∃ q, runActs l emptyThreadProfiler = some q ∧
      q.Entries.length = beginCount l ∧
      ∀ x ∈ q.Entries, x.Start ≤ x.End := by
  obtain ⟨q, hq, _, hlen, hwf⟩ := runActs_balanced_wf l hb emptyThreadProfiler
    hmono
  refine ⟨q, hq, ?_, ?_⟩
  · rw [hlen, balanced_endCount_eq_beginCount l hb]
    simp [emptyThreadProfiler]
  · intro x hx
    rcases hwf x hx with h | h
    · simp [emptyThreadProfiler] at h
    · exact h

/-- C3, witness: two nested sections at increasing clock values complete
with two entries, each with end at or after start. -/
theorem balanced_run_entry_count_and_order_witness :
    ∃ q, runActs [Act.beginA 1 "a" "x", Act.beginA 2 "b" "y",
        Act.endA 3, Act.endA 4] emptyThreadProfiler = some q ∧
      q.Entries.length = beginCount [Act.beginA 1 "a" "x",
        Act.beginA 2 "b" "y", Act.endA 3, Act.endA 4] ∧
      ∀ x ∈ q.Entries, x.Start ≤ x.End :=
  balanced_run_entry_count_and_order _
    (Balanced.pair 1 4 "a" "x" [Act.beginA 2 "b" "y", Act.endA 3] []
      (Balanced.pair 2 3 "b" "y" [] [] Balanced.nil Balanced.nil)
      Balanced.nil)
    (by decide)

/-- C8: if tracing is active when a scope is constructed (and stays
active), destroying the scope appends exactly one completed entry, the
scope entry itself, whatever balanced instrumentation the enclosed code
performed before exiting along any path. -/
theorem scope_appends_exactly_one_entry
    (N D : String) (s t : TimePointType) (body : List Act)
    (p : TimeTraceProfiler) (hb : Balanced body) :
    ∃ q rr, runActs body (timeTraceScopeCtor true s N D p).1 = some q ∧
      (timeTraceScopeDtor true t q).1 = some rr ∧
      rr.Entries = q.Entries ++ [⟨s, t, N, D⟩] ∧
      rr.Entries.length = p.Entries.length + endCount body + 1 := by
  obtain ⟨q, hq, hsq, hlq⟩ := runActs_balanced_stack body hb
    (timeTraceScopeCtor true s N D p).1
  obtain ⟨st1, E1, T1⟩ := q
  have hs1x : st1 = ⟨s, s, N, D⟩ :: p.Stack := hsq
  subst hs1x
  have hl1x : E1.length = p.Entries.length + endCount body := hlq
  have hd : (timeTraceScopeDtor true t
      (⟨⟨s, s, N, D⟩ :: p.Stack, E1, T1⟩ : TimeTraceProfiler)).1
      = some ⟨p.Stack, E1 ++ [(⟨s, t, N, D⟩ : TimeTraceProfilerEntry)],
          if p.Stack.any (fun a => a.Name == N) then T1
          else updateTotal T1 N (t - s)⟩ := rfl
  refine ⟨⟨⟨s, s, N, D⟩ :: p.Stack, E1, T1⟩,
    ⟨p.Stack, E1 ++ [(⟨s, t, N, D⟩ : TimeTraceProfilerEntry)],
      if p.Stack.any (fun a => a.Name == N) then T1
      else updateTotal T1 N (t - s)⟩, hq, hd, rfl, ?_⟩
  simp [List.length_append]
  omega

/-- C8, witness: an active scope around an empty body on a fresh profiler
appends exactly its own completed entry. -/
theorem scope_appends_exactly_one_entry_witness :
    ∃ q rr, runActs [] (timeTraceScopeCtor true 1 "event" "detail"
        emptyThreadProfiler).1 = some q ∧
      (timeTraceScopeDtor true 2 q).1 = some rr ∧
      rr.Entries = q.Entries ++ [⟨1, 2, "event", "detail"⟩] ∧
      rr.Entries.length = emptyThreadProfiler.Entries.length + endCount [] + 1 :=
  scope_appends_exactly_one_entry "event" "detail" 1 2 [] emptyThreadProfiler
    Balanced.nil

/-- Running the disjoint invocation program threads the completed list
and the per-name totals through one begin/end pair per interval. -/
theorem runActs_disjoint (N : String) :
    ∀ (ivs : List (Nat × Nat)) (E : List TimeTraceProfilerEntry)
      (T : List (String × Nat × Nat)),
      runActs (disjointProgram N ivs) ⟨[], E, T⟩
        = some ⟨[], E ++ ivs.map (fun se => ⟨se.1, se.2, N, ""⟩),
            ivs.foldl (fun m se => updateTotal m N (se.2 - se.1)) T⟩ := by
  intro ivs
  induction ivs with
  | nil => intro E T; simp [disjointProgram, runActs]
  | cons se rest ih =>
    intro E T
    obtain ⟨s, e⟩ := se
    have h1 : disjointProgram N ((s, e) :: rest)
        = Act.beginA s N "" :: Act.endA e :: disjointProgram N rest := rfl
    have h2 : runActs (Act.beginA s N "" :: Act.endA e ::
          disjointProgram N rest) ⟨[], E, T⟩
        = runActs (disjointProgram N rest)
            ⟨[], E ++ [⟨s, e, N, ""⟩], updateTotal T N (e - s)⟩ := rfl
    rw [h1, h2, ih]
    simp [List.append_assoc]

/-- The state reached by the disjoint invocation program from a fresh
profiler is the disjoint profiler. -/
theorem runActs_disjoint_fresh (N : String) (ivs : List (Nat × Nat)) :
    runActs (disjointProgram N ivs) emptyThreadProfiler
      = some (disjointProfiler N ivs) := by
  have h := runActs_disjoint N ivs [] []
  simpa [emptyThreadProfiler, disjointProfiler] using h

/-- The duration sum of a nonempty interval list unfolds by one step. -/
theorem sumDur_cons (se : Nat × Nat) (rest : List (Nat × Nat)) :
    sumDur (se :: rest) = (se.2 - se.1) + sumDur rest := by
  simp [sumDur]

/-- Folding repeated occurrences of one name into a singleton totals map
accumulates the count and the duration sum. -/
theorem foldl_updateTotal_same (N : String) :
    ∀ (ivs : List (Nat × Nat)) (c t : Nat),
      ivs.foldl (fun m se => updateTotal m N (se.2 - se.1)) [(N, c, t)]
        = [(N, c + ivs.length, t + sumDur ivs)] := by
  intro ivs
  induction ivs with
  | nil => intro c t; simp [sumDur]
  | cons se rest ih =>
    intro c t
    have h1 : updateTotal [(N, c, t)] N (se.2 - se.1)
        = [(N, c + 1, t + (se.2 - se.1))] := by simp [updateTotal]
    rw [List.foldl_cons, h1, ih, sumDur_cons, List.length_cons]
    have h2 : c + 1 + rest.length = c + (rest.length + 1) := by omega
    have h3 : t + (se.2 - se.1) + sumDur rest
        = t + ((se.2 - se.1) + sumDur rest) := by omega
    rw [h2, h3]

/-- Folding the occurrences of one name into a fresh totals map yields
the count and duration sum of the occurrences, or nothing when there is
none. -/
theorem foldl_updateTotal_fresh (N : String) (ivs : List (Nat × Nat)) :
    ivs.foldl (fun m se => updateTotal m N (se.2 - se.1)) []
      = if ivs.length = 0 then [] else [(N, ivs.length, sumDur ivs)] := by
  cases ivs with
  | nil => simp
  | cons se rest =>
    have h1 : updateTotal [] N (se.2 - se.1) = [(N, 1, se.2 - se.1)] := rfl
    rw [List.foldl_cons, h1, foldl_updateTotal_same, sumDur_cons,
      List.length_cons]
    rw [if_neg (Nat.succ_ne_zero rest.length)]
    have h2 : 1 + rest.length = rest.length + 1 := by omega
    have h3 : se.2 - se.1 + sumDur rest = (se.2 - se.1) + sumDur rest := rfl
    rw [h2, h3]

/-- Merging the per-thread totals of disjoint invocation threads into a
singleton accumulator sums all counts and durations. -/
theorem combine_disjoint_acc (N : String) :
    ∀ (tss : List (List (Nat × Nat))) (c t : Nat),
      (tss.map (disjointProfiler N)).foldl
          (fun acc p => p.CountAndTotalPerName.foldl addTotal acc) [(N, c, t)]
        = [(N, c + (tss.map List.length).sum, t + (tss.map sumDur).sum)] := by
  intro tss
  induction tss with
  | nil => intro c t; simp
  | cons ivs rest ih =>
    intro c t
    rw [List.map_cons, List.foldl_cons]
    cases ivs with
    | nil =>
      have h0 : (disjointProfiler N ([] : List (Nat × Nat))).CountAndTotalPerName
          = [] := rfl
      rw [h0, List.foldl_nil, ih]
      have hl : (List.map List.length (([] : List (Nat × Nat)) :: rest)).sum
          = (List.map List.length rest).sum := by simp
      have hd : (List.map sumDur (([] : List (Nat × Nat)) :: rest)).sum
          = (List.map sumDur rest).sum := by simp [sumDur]
      rw [hl, hd]
    | cons se r2 =>
      have hthread : (disjointProfiler N (se :: r2)).CountAndTotalPerName
          = [(N, (se :: r2).length, sumDur (se :: r2))] := by
        have h := foldl_updateTotal_fresh N (se :: r2)
        rw [if_neg (by simp)] at h
        exact h
      rw [hthread, List.foldl_cons, List.foldl_nil]
      have haddT : addTotal [(N, c, t)] (N, (se :: r2).length,
          sumDur (se :: r2)) = [(N, c + (se :: r2).length,
          t + sumDur (se :: r2))] := by simp [addTotal]
      rw [haddT, ih]
      have hcn : c + (se :: r2).length + (List.map List.length rest).sum
          = c + (List.map List.length ((se :: r2) :: rest)).sum := by
        rw [List.map_cons, List.sum_cons]
        omega
      have htn : t + sumDur (se :: r2) + (List.map sumDur rest).sum
          = t + (List.map sumDur ((se :: r2) :: rest)).sum := by
        rw [List.map_cons, List.sum_cons]
        omega
      rw [hcn, htn]

/-- Combining the totals of disjoint invocation threads of one name
yields one aggregate carrying the summed count and duration, provided
there is at least one invocation overall. -/
theorem combineTotals_disjoint (N : String) :
    ∀ tss : List (List (Nat × Nat)), 0 < (tss.map List.length).sum →
      combineTotals (tss.map (disjointProfiler N))
        = [(N, (tss.map List.length).sum, (tss.map sumDur).sum)] := by
  intro tss
  induction tss with
  | nil => intro hk; simp at hk
  | cons ivs rest ih =>
    intro hk
    cases ivs with
    | nil =>
      have hstep : combineTotals (List.map (disjointProfiler N) ([] :: rest))
          = combineTotals (List.map (disjointProfiler N) rest) := rfl
      rw [hstep, ih (by simpa using hk)]
      have hl : (List.map List.length (([] : List (Nat × Nat)) :: rest)).sum
          = (List.map List.length rest).sum := by simp
      have hd : (List.map sumDur (([] : List (Nat × Nat)) :: rest)).sum
          = (List.map sumDur rest).sum := by simp [sumDur]
      rw [hl, hd]
    | cons se r2 =>
      have hthread : (disjointProfiler N (se :: r2)).CountAndTotalPerName
          = [(N, (se :: r2).length, sumDur (se :: r2))] := by
        have h := foldl_updateTotal_fresh N (se :: r2)
        rw [if_neg (by simp)] at h
        exact h
      have hstep : combineTotals (List.map (disjointProfiler N)
            ((se :: r2) :: rest))
          = (rest.map (disjointProfiler N)).foldl
              (fun acc p => p.CountAndTotalPerName.foldl addTotal acc)
              ((disjointProfiler N (se :: r2)).CountAndTotalPerName.foldl
                addTotal []) := rfl
      rw [hstep, hthread, List.foldl_cons, List.foldl_nil]
      have hadd0 : addTotal [] (N, (se :: r2).length, sumDur (se :: r2))
          = [(N, (se :: r2).length, sumDur (se :: r2))] := rfl
      rw [hadd0, combine_disjoint_acc]
      have hcn : (se :: r2).length + (List.map List.length rest).sum
          = (List.map List.length ((se :: r2) :: rest)).sum := by
        rw [List.map_cons, List.sum_cons]
      have htn : sumDur (se :: r2) + (List.map sumDur rest).sum
          = (List.map sumDur ((se :: r2) :: rest)).sum := by
        rw [List.map_cons, List.sum_cons]
      rw [hcn, htn]

/-- Scaling intervals from microseconds to nanosecond ticks scales the
duration sum by the tick ratio. -/
theorem sumDur_scaleUs (ivs : List (Nat × Nat)) :
    sumDur (scaleUs ivs) = 1000 * sumDur ivs := by
  induction ivs with
  | nil => simp [sumDur, scaleUs]
  | cons se rest ih =>
    have h1 : scaleUs (se :: rest) = (1000 * se.1, 1000 * se.2) ::
        scaleUs rest := by simp [scaleUs]
    rw [h1, sumDur_cons, sumDur_cons, ih]
    omega

/-- Summing the scaled per-thread duration sums scales the overall sum
by the tick ratio. -/
theorem map_sumDur_scaleUs (tssUs : List (List (Nat × Nat))) :
    ((tssUs.map fun ivs => sumDur (scaleUs ivs)).sum)
      = 1000 * (tssUs.map sumDur).sum := by
  induction tssUs with
  | nil => simp
  | cons ivs rest ih =>
    rw [List.map_cons, List.sum_cons, List.map_cons, List.sum_cons, ih,
      sumDur_scaleUs]
    omega

/-- Scaling preserves the number of intervals of each thread. -/
theorem map_length_scaleUs (tssUs : List (List (Nat × Nat))) :
    ((tssUs.map fun ivs => (scaleUs ivs).length).sum)
      = (tssUs.map List.length).sum := by
  induction tssUs with
  | nil => simp
  | cons ivs rest ih =>
    rw [List.map_cons, List.sum_cons, List.map_cons, List.sum_cons, ih]
    simp [scaleUs]

/-- With positive granularity, every emitted per-section event has
duration at least the granularity. -/
theorem mem_sectionEventsFrom_dur (G origin : Nat) (hG : 0 < G) :
    ∀ (insts : List TimeTraceProfiler) (tid : Nat),
      ∀ ev ∈ sectionEventsFrom G origin tid insts, (G : Int) ≤ ev.Dur := by
  intro insts
  induction insts with
  | nil =>
    intro tid ev hev
    simp [sectionEventsFrom] at hev
  | cons p rest ih =>
    intro tid ev hev
    simp only [sectionEventsFrom, List.mem_append, List.mem_map,
      List.mem_filter] at hev
    rcases hev with ⟨x, ⟨hxmem, hxkeep⟩, rfl⟩ | h2
    · simp only [keepEntry, Bool.or_eq_true, beq_iff_eq,
        decide_eq_true_eq] at hxkeep
      rcases hxkeep with h0 | hle
      · omega
      · exact hle
    · exact ih (tid + 1) ev h2

/-- With granularity zero the serializer retains every completed
entry. -/
theorem sectionEventsFrom_zero_all (origin : Nat) :
    ∀ (insts : List TimeTraceProfiler) (tid : Nat),
      sectionEventsFrom 0 origin tid insts
        = allSectionEventsFrom origin tid insts := by
  intro insts
  induction insts with
  | nil => intro tid; rfl
  | cons p rest ih =>
    intro tid
    have hf : p.Entries.filter (keepEntry 0) = p.Entries :=
      List.filter_eq_self.mpr (fun a _ => by simp [keepEntry])
    simp only [sectionEventsFrom, allSectionEventsFrom, ih, hf]

/-- C4: for a section name invoked across threads in disjoint,
non-nested whole-microsecond intervals, the emitted trace carries
exactly one synthetic Total event for that name, its dur the sum of all
interval durations and its count the number of invocations, summed
across all registered threads; and a directly nested re-entry of the
same name is not double counted in the totals. -/
theorem total_event_sums_disjoint_invocations (N : String)
    (tssUs : List (List (Nat × Nat)))
    (hk : 0 < (tssUs.map List.length).sum) :
    (∀ ivs ∈ tssUs, runActs (disjointProgram N (scaleUs ivs))
        emptyThreadProfiler = some (disjointProfiler N (scaleUs ivs)))
    ∧ totalEvents (tssUs.map fun ivs => disjointProfiler N (scaleUs ivs))
        = [⟨"Total " ++ N, 0, (((tssUs.map sumDur).sum : Nat) : Int), 0, "",
            some (tssUs.map List.length).sum⟩]
    ∧ ∀ (s1 s2 e2 e1 : Nat) (D1 D2 : String),
        runActs [Act.beginA s1 N D1, Act.beginA s2 N D2, Act.endA e2,
          Act.endA e1] emptyThreadProfiler
        = some ⟨[], [⟨s2, e2, N, D2⟩, ⟨s1, e1, N, D1⟩],
            [(N, 1, e1 - s1)]⟩ := by
  refine ⟨fun ivs _ => runActs_disjoint_fresh N (scaleUs ivs), ?_, ?_⟩
  · have hmap : (tssUs.map fun ivs => disjointProfiler N (scaleUs ivs))
        = (tssUs.map scaleUs).map (disjointProfiler N) := by
      rw [List.map_map]
      rfl
    have hK : ((tssUs.map scaleUs).map List.length).sum
        = (tssUs.map List.length).sum := by
      rw [List.map_map]
      exact map_length_scaleUs tssUs
    have hT : ((tssUs.map scaleUs).map sumDur).sum
        = 1000 * (tssUs.map sumDur).sum := by
      rw [List.map_map]
      exact map_sumDur_scaleUs tssUs
    have hk2 : 0 < ((tssUs.map scaleUs).map List.length).sum := by
      rw [hK]
      exact hk
    rw [hmap]
    simp only [totalEvents, combineTotals_disjoint N (tssUs.map scaleUs) hk2,
      List.map_cons, List.map_nil]
    rw [hK, hT, Nat.mul_div_cancel_left _ (by norm_num : 0 < 1000)]
  · intro s1 s2 e2 e1 D1 D2
    simp [runActs, step, beginSection, endSection, emptyThreadProfiler,
      updateTotal]

/-- C4, witness: three disjoint invocations of one name spread over two
threads produce exactly one Total event carrying their summed duration
and the count three. -/
theorem total_event_sums_disjoint_invocations_witness :
    totalEvents (([[(0, 5)], [(10, 12), (20, 21)]] :
        List (List (Nat × Nat))).map fun ivs =>
          disjointProfiler "n" (scaleUs ivs))
      = [⟨"Total " ++ "n", 0,
          (((([[(0, 5)], [(10, 12), (20, 21)]] :
            List (List (Nat × Nat))).map sumDur).sum : Nat) : Int), 0, "",
          some (([[(0, 5)], [(10, 12), (20, 21)]] :
            List (List (Nat × Nat))).map List.length).sum⟩] :=
  (total_event_sums_disjoint_invocations "n"
    [[(0, 5)], [(10, 12), (20, 21)]] (by decide)).2.1

/-- C5: with positive elision granularity, every completed entry whose
microsecond duration is strictly below the granularity is omitted from
the emitted per-section event list while still contributing its
duration and occurrence count to the Total aggregate of its name; with
granularity zero every entry is retained. -/
theorem elision_drops_small_entries_keeps_totals
    (G origin s e : Nat) (N D pn : String) (insts : List TimeTraceProfiler)
    (hG : 0 < G)
    (hsmall : (⟨s, e, N, D⟩ : TimeTraceProfilerEntry).getFlameGraphDurUs
      < (G : Int)) :
    (∀ ev ∈ sectionEvents G origin insts, (G : Int) ≤ ev.Dur)
    ∧ (∀ p ∈ insts, ∀ x ∈ p.Entries, x.getFlameGraphDurUs < (G : Int) →
        ∀ tid, entryEvent origin tid x ∉ sectionEvents G origin insts)
    ∧ (∀ (origin2 : Nat) (insts2 : List TimeTraceProfiler),
        sectionEvents 0 origin2 insts2 = allSectionEventsFrom origin2 0 insts2)
    ∧ runActs [Act.beginA s N D, Act.endA e] emptyThreadProfiler
        = some ⟨[], [⟨s, e, N, D⟩], [(N, 1, e - s)]⟩
    ∧ writeEvents ⟨G, pn, origin, [⟨[], [⟨s, e, N, D⟩], [(N, 1, e - s)]⟩]⟩
        = [⟨"Total " ++ N, 0, (((e - s) / 1000 : Nat) : Int), 0, "",
            some 1⟩] := by
  have hA : ∀ ev ∈ sectionEvents G origin insts, (G : Int) ≤ ev.Dur :=
    fun ev hev => mem_sectionEventsFrom_dur G origin hG insts 0 ev hev
  refine ⟨hA, ?_, ?_, rfl, ?_⟩
  · intro p hp x hx hxsmall tid hmem
    have hle := hA _ hmem
    have hd : (entryEvent origin tid x).Dur = x.getFlameGraphDurUs := rfl
    rw [hd] at hle
    omega
  · intro origin2 insts2
    exact sectionEventsFrom_zero_all origin2 insts2 0
  · have h1 : (G == 0) = false := by
      have h0 := Nat.pos_iff_ne_zero.mp hG
      simp [h0]
    have h2 : decide ((G : Int) ≤ (⟨s, e, N, D⟩ :
        TimeTraceProfilerEntry).getFlameGraphDurUs) = false :=
      decide_eq_false (not_le.mpr hsmall)
    have hkeep : keepEntry G (⟨s, e, N, D⟩ : TimeTraceProfilerEntry)
        = false := by
      simp [keepEntry, h1, h2]
    have hsec : sectionEvents G origin
        [⟨[], [⟨s, e, N, D⟩], [(N, 1, e - s)]⟩] = [] := by
      simp [sectionEvents, sectionEventsFrom, hkeep]
    have hw : writeEvents ⟨G, pn, origin,
        [⟨[], [⟨s, e, N, D⟩], [(N, 1, e - s)]⟩]⟩
        = sectionEvents G origin [⟨[], [⟨s, e, N, D⟩], [(N, 1, e - s)]⟩]
          ++ [⟨"Total " ++ N, 0, (((e - s) / 1000 : Nat) : Int), 0, "",
              some 1⟩] := rfl
    rw [hw, hsec, List.nil_append]

/-- C5, witness: with granularity 5, a completed entry lasting one
microsecond is elided from the section events yet its name still gets a
Total event with count one. -/
theorem elision_drops_small_entries_keeps_totals_witness :
    writeEvents ⟨5, "p", 7, [⟨[], [⟨0, 1000, "x", "y"⟩], [("x", 1, 1000 - 0)]⟩]⟩
      = [⟨"Total " ++ "x", 0, (((1000 - 0) / 1000 : Nat) : Int), 0, "",
          some 1⟩] :=
  (elision_drops_small_entries_keeps_totals 5 7 0 1000 "x" "y" "p" []
    (by decide) (by decide)).2.2.2.2

/-- C1: the serialized start offset and duration of a completed entry are
computed by truncating each endpoint to microsecond precision first and
subtracting afterwards: getFlameGraphStartUs and getFlameGraphDurUs are
exactly the differences of the microsecond-truncated endpoints, the
serializer uses them verbatim for the ts and dur fields, and
consequently a child entry nested inside a parent window never has a
larger rounded duration than the parent window. -/
theorem getFlameGraphUs_truncates_endpoints_first
    (parent child : TimeTraceProfilerEntry) (origin : TimePointType)
    (tid : Nat)
    (h1 : parent.Start ≤ child.Start) (h2 : child.End ≤ parent.End) :
    child.getFlameGraphStartUs origin
        = ((child.Start / 1000 : Nat) : Int) - ((origin / 1000 : Nat) : Int)
    ∧ child.getFlameGraphDurUs
        = ((child.End / 1000 : Nat) : Int) - ((child.Start / 1000 : Nat) : Int)
    ∧ entryEvent origin tid child
        = ⟨child.Name, child.getFlameGraphStartUs origin,
           child.getFlameGraphDurUs, tid, child.Detail, none⟩
    ∧ child.getFlameGraphDurUs ≤ parent.getFlameGraphDurUs := by
  refine ⟨rfl, rfl, rfl, ?_⟩
  unfold TimeTraceProfilerEntry.getFlameGraphDurUs timePointCastUs
  have hs : parent.Start / 1000 ≤ child.Start / 1000 := Nat.div_le_div_right h1
  have he : child.End / 1000 ≤ parent.End / 1000 := Nat.div_le_div_right h2
  exact sub_le_sub (by exact_mod_cast he) (by exact_mod_cast hs)

/-- C1, witness: a child spanning ticks 1000 to 2500 inside a parent
spanning 0 to 5000 has rounded duration at most the parent one. -/
theorem getFlameGraphUs_truncates_endpoints_first_witness :
    (⟨1000, 2500, "c", ""⟩ : TimeTraceProfilerEntry).getFlameGraphDurUs
      ≤ (⟨0, 5000, "p", ""⟩ : TimeTraceProfilerEntry).getFlameGraphDurUs :=
  (getFlameGraphUs_truncates_endpoints_first ⟨0, 5000, "p", ""⟩
    ⟨1000, 2500, "c", ""⟩ 0 0 (by decide) (by decide)).2.2.2

/-- C2: a zero-argument detail closure is invoked at most once and only
when tracing is active at the moment the entry is created with its
detail; when tracing is inactive the closure is never invoked and the
begin operations are no-ops with zero clock reads and zero closure
calls, the detached variant returning the default empty entry. -/
theorem detail_closure_at_most_once_only_when_active
    (now : TimePointType) (N : String) (D : Unit → String)
    (p : TimeTraceProfiler) :
    timeTraceProfilerBeginClosure false now N D p = (p, ⟨0, 0⟩)
    ∧ timeTraceProfilerBeginEntryClosure false now N D = (⟨0, 0, "", ""⟩, ⟨0, 0⟩)
    ∧ timeTraceScopeCtorClosure false now N D p = (p, ⟨0, 0⟩)
    ∧ (∀ active,
        (timeTraceProfilerBeginClosure active now N D p).2.DetailCalls ≤ 1
        ∧ (timeTraceProfilerBeginEntryClosure active now N D).2.DetailCalls ≤ 1
        ∧ (timeTraceScopeCtorClosure active now N D p).2.DetailCalls ≤ 1)
    ∧ (timeTraceProfilerBeginClosure true now N D p).1.Stack.head?.map
        TimeTraceProfilerEntry.Detail = some (D ())
    ∧ (timeTraceProfilerBeginEntryClosure true now N D).1.Detail = D () := by
  refine ⟨rfl, rfl, rfl, ?_, rfl, rfl⟩
  intro active
  cases active <;>
    simp [timeTraceProfilerBeginClosure, timeTraceProfilerBeginEntryClosure,
      timeTraceScopeCtorClosure]

/-- C6: initializing while a registry is already active fails with the
already-initialized error as a typed recoverable failure and leaves the
existing registry, all fields included, unchanged. -/
theorem reinit_fails_already_init_state_unchanged
    (gran : Nat) (pn : String) (now : TimePointType) (r : ProcessRegistry) :
    timeTraceProfilerInit gran pn now (some r)
        = (Except.error "already initialized", some r)
    ∧ (timeTraceProfilerInit gran pn now (some r)).2 = some r
    ∧ ∀ u, (timeTraceProfilerInit gran pn now (some r)).1 ≠ Except.ok u := by
  refine ⟨rfl, rfl, ?_⟩
  intro u h
  exact Except.noConfusion h

/-- C7: writing when no registry is active fails with the distinct
not-initialized error and produces no output. -/
theorem write_uninit_fails_no_output :
    timeTraceProfilerWriteOp none = Except.error "not initialized"
    ∧ "not initialized" ≠ "already initialized"
    ∧ ∀ evs, timeTraceProfilerWriteOp none ≠ Except.ok evs := by
  refine ⟨rfl, by decide, ?_⟩
  intro evs h
  exact Except.noConfusion h

/-- C9, counterexample: the core file-target write operation itself
derives the fallback output filename; with no preferred name and
fallback base foo it derives foo.time-trace instead of leaving the name
untouched for the boundary caller. -/
theorem write_fallback_suffix_in_core_cex :
    writeTargetPath "" "foo" = "foo.time-trace"
    ∧ writeTargetPath "" "foo" ≠ "foo" := by
  constructor
  · simp [writeTargetPath]
  · simp [writeTargetPath]

/-- C9, amended: when no preferred file name is given, the core
file-target write operation itself derives the output path by appending
.time-trace to the fallback base name; a nonempty preferred name is used
as given. -/
theorem write_fallback_suffix_in_core (pref fb : String) (h : pref ≠ "") :
    writeTargetPath "" fb = fb ++ ".time-trace"
    ∧ writeTargetPath pref fb = pref := by
  constructor
  · simp [writeTargetPath]
  · simp [writeTargetPath, h]

/-- C9, witness for the amended statement at preferred name a and
fallback base foo. -/
theorem write_fallback_suffix_in_core_witness :
    writeTargetPath "" "foo" = "foo" ++ ".time-trace"
    ∧ writeTargetPath "a" "foo" = "a" :=
  write_fallback_suffix_in_core "a" "foo" (by decide)

/-- C10: the scope helper tests profiler activity independently at
construction and at destruction; constructed inactive but destroyed
active it issues an end call with no matching begin, underflowing an
empty stack, and constructed active but destroyed inactive it issues a
begin whose open entry is never ended. -/
theorem scope_independent_active_checks_break_pairing
    (now now2 : TimePointType) (N D : String) (p : TimeTraceProfiler)
    (h : p.Stack = []) :
    timeTraceScopeCtor false now N D p = (p, 0)
    ∧ (timeTraceScopeDtor true now2 p).2 = 1
    ∧ (timeTraceScopeDtor true now2 p).1 = none
    ∧ (timeTraceScopeCtor true now N D p).2 = 1
    ∧ (timeTraceScopeDtor false now2 (timeTraceScopeCtor true now N D p).1).1
        = some (timeTraceScopeCtor true now N D p).1
    ∧ (timeTraceScopeDtor false now2 (timeTraceScopeCtor true now N D p).1).2 = 0
    ∧ ((timeTraceScopeCtor true now N D p).1).Stack.length
        = p.Stack.length + 1 := by
  refine ⟨rfl, rfl, ?_, rfl, rfl, rfl, ?_⟩
  · simp [timeTraceScopeDtor, endSection, h]
  · simp [timeTraceScopeCtor, beginSection]

/-- C10, witness: on a fresh profiler, an inactive construction issues no
begin while an active destruction still issues an end, which
underflows. -/
theorem scope_independent_active_checks_break_pairing_witness :
    (timeTraceScopeDtor true 5 emptyThreadProfiler).1 = none
    ∧ timeTraceScopeCtor false 3 "n" "d" emptyThreadProfiler
        = (emptyThreadProfiler, 0) := by
  have h := scope_independent_active_checks_break_pairing 3 5 "n" "d"
    emptyThreadProfiler rfl
  exact ⟨h.2.2.1, h.1⟩

end TimeProfiler
